import Mathlib

/-!
# Verification of the Treiber stack with popper-counted reclamation (`src/stack.rs`)

Shallow embedding of the Rust source in `src/stack.rs`.  Raw pointers are
modelled as `Option Nat` (with `none` as null) over an explicit heap of
allocated nodes (an association list from addresses to `Node` records, most
recently allocated first).  Freeing a node removes it from the heap.  The
stack record carries the three shared fields of the source (`top`, `pops`,
`garbage`) together with bookkeeping that the source performs through the
allocator: the next fresh address and the running counts of allocations and
frees.

The embedding gives the source's *sequential* semantics: each atomic
operation takes effect immediately and every compare-exchange succeeds on its
first attempt (in the absence of interference the source's retry loops run
exactly one iteration).  The one concurrency window that the specification's
claims single out — other threads performing `pops.fetch_add(1)` between
`reclaim`'s initial `load` of `pops` and its `fetch_sub` — is modelled by an
explicit `arrivals` parameter to `reclaim`; a single-threaded execution is
`arrivals = 0`.

Partial behaviour of the source (dereferencing a freed or dangling pointer,
and loops that never terminate, both of which the unsafe Rust allows) is
modelled by `Option`: a `none` result means the call does not return
normally.  Loops over node chains carry fuel `heap.length + 1`, which is
enough for every walk over an acyclic chain of live nodes, so `none` arises
exactly from a dangling dereference or a genuinely diverging walk.
-/

namespace ConcurrencyStack

/-- A raw node pointer: `none` is the null pointer. -/
abbrev Ptr := Option Nat

/-- `Node<T>`: one value and the raw `next` pointer (`src/stack.rs`, lines 4-7). -/
structure Node (T : Type) where
  value : T
  next : Ptr
deriving Repr, DecidableEq

/-- `Stack<T>` (`src/stack.rs`, lines 9-18) together with the allocator state the
source delegates to `Box`: `heap` maps live addresses to nodes, `nextAddr` is
the next fresh address, and `allocs`/`frees` count `Box::new`/`Box::from_raw`. -/
structure Stack (T : Type) where
  top : Ptr
  pops : Nat
  garbage : Ptr
  heap : List (Nat × Node T)
  nextAddr : Nat
  allocs : Nat
  frees : Nat
deriving Repr, DecidableEq

variable {T : Type}

/-- Dereference an address in the heap (`none`: the address is not allocated,
so the source's access would be a use-after-free). -/
def hfind : List (Nat × Node T) → Nat → Option (Node T)
  | [], _ => none
  | (b, n) :: rest, a => if a = b then some n else hfind rest a

/-- Write the `next` field of the node at address `a` (the source's
`(*last).next = head`). -/
def hsetNext : List (Nat × Node T) → Nat → Ptr → List (Nat × Node T)
  | [], _, _ => []
  | (b, n) :: rest, a, p =>
    if a = b then (b, { n with next := p }) :: rest else (b, n) :: hsetNext rest a p

/-- Remove the node at address `a` from the heap (deallocation). -/
def hdel : List (Nat × Node T) → Nat → List (Nat × Node T)
  | [], _ => []
  | (b, n) :: rest, a => if a = b then rest else (b, n) :: hdel rest a

/-- `Stack::new` (`src/stack.rs`, lines 21-27). -/
def Stack.new (T : Type) : Stack T :=
  { top := none, pops := 0, garbage := none, heap := [], nextAddr := 0,
    allocs := 0, frees := 0 }

/-- `Stack::push` (`src/stack.rs`, lines 30-42): load `top`, allocate a node
whose `next` is the loaded value, and CAS it in as the new head.  Sequentially
the CAS succeeds at once, so the node's `next` is exactly the current `top`. -/
def Stack.push (s : Stack T) (v : T) : Stack T :=
  { s with
    top := some s.nextAddr,
    heap := (s.nextAddr, ⟨v, s.top⟩) :: s.heap,
    nextAddr := s.nextAddr + 1,
    allocs := s.allocs + 1 }

/-- The walk in `Stack::tie` that finds the last node of the chain starting at
`a` (`while !(*last).next.is_null()`), with fuel.  `none` means the walk
dereferences a dangling pointer or never reaches a null link (a cycle). -/
def findLast (h : List (Nat × Node T)) : Nat → Nat → Option Nat
  | 0, _ => none
  | fuel + 1, a =>
    match hfind h a with
    | none => none
    | some n =>
      match n.next with
      | none => some a
      | some b => findLast h fuel b

/-- `Stack::tie` (`src/stack.rs`, lines 109-127): walk from `list` to the last
node of its chain, point that node's `next` at the current `garbage` head, and
CAS `garbage` to `list` (sequentially the CAS succeeds at once). -/
def Stack.tie (s : Stack T) (list : Nat) : Option (Stack T) :=
  match findLast s.heap (s.heap.length + 1) list with
  | none => none
  | some last =>
    some { s with heap := hsetNext s.heap last s.garbage, garbage := some list }

/-- The freeing loop in `Stack::reclaim` (`src/stack.rs`, lines 91-98): free
every node of the chain starting at `p`, following each node's `next`. -/
def freeChain : Nat → Stack T → Ptr → Option (Stack T)
  | _, s, none => some s
  | 0, _, some _ => none
  | fuel + 1, s, some a =>
    match hfind s.heap a with
    | none => none
    | some n =>
      freeChain fuel { s with heap := hdel s.heap a, frees := s.frees + 1 } n.next

/-- `Box::from_raw(node)`: free one node.  `none` if the address is not live
(a double free). -/
def freeNode (s : Stack T) (a : Nat) : Option (Stack T) :=
  match hfind s.heap a with
  | none => none
  | some _ => some { s with heap := hdel s.heap a, frees := s.frees + 1 }

/-- `Stack::reclaim` (`src/stack.rs`, lines 83-107).  `arrivals` is the number
of `pops.fetch_add(1)` operations other threads perform between this call's
initial `load` of `pops` and its `fetch_sub` (`0` in a single-threaded run),
so the `fetch_sub`'s previous value is the loaded value plus `arrivals`. -/
def Stack.reclaim (s : Stack T) (node : Nat) (arrivals : Nat) : Option (Stack T) :=
  if s.pops = 1 then
    -- Capture the garbage list: `garbage.swap(null)`.
    let garbage := s.garbage
    let s1 : Stack T := { s with garbage := none }
    -- `pops.fetch_sub(1)` returns the previous value.
    let prev := s1.pops + arrivals
    let s2 : Stack T := { s1 with pops := prev - 1 }
    if prev ≠ 1 then
      -- Source: free the whole captured chain, then fall through to free `node`.
      match freeChain (s2.heap.length + 1) s2 garbage with
      | none => none
      | some s3 => freeNode s3 node
    else
      -- Source: re-attach the captured chain (when non-empty), then free `node`.
      match garbage with
      | none => freeNode s2 node
      | some g =>
        match s2.tie g with
        | none => none
        | some s3 => freeNode s3 node
  else
    match s.tie node with
    | none => none
    | some s1 => some { s1 with pops := s1.pops + arrivals - 1 }

/-- `Stack::pop` (`src/stack.rs`, lines 45-81): increment `pops`, load `top`;
if null return `none` at once (the source performs no decrement on this path);
otherwise read the head's `next`, CAS `top` to it (sequentially at once), read
the value out and run `reclaim`.  The outer `Option` is partiality: `none`
means the call does not return normally. -/
def Stack.pop (s : Stack T) : Option (Stack T × Option T) :=
  let s0 : Stack T := { s with pops := s.pops + 1 }
  match s0.top with
  | none => some (s0, none)
  | some t =>
    match hfind s0.heap t with
    | none => none
    | some n =>
      let s1 : Stack T := { s0 with top := n.next }
      match s1.reclaim t 0 with
      | none => none
      | some s2 => some (s2, some n.value)

/-- A client operation on the stack. -/
inductive Op (T : Type) where
  | push (v : T)
  | pop
deriving Repr, DecidableEq

/-- Run a sequence of operations from state `s`, collecting each `pop`'s
result.  `none` means some call did not return normally. -/
def runFrom (s : Stack T) : List (Op T) → Option (Stack T × List (Option T))
  | [] => some (s, [])
  | Op.push v :: rest => runFrom (s.push v) rest
  | Op.pop :: rest =>
    match s.pop with
    | none => none
    | some (s1, r) =>
      match runFrom s1 rest with
      | none => none
      | some (s2, rs) => some (s2, r :: rs)

/-- Run a sequence of operations on a fresh stack. -/
def run (ops : List (Op Nat)) : Option (Stack Nat × List (Option Nat)) :=
  runFrom (Stack.new Nat) ops

/-- Addresses reachable from pointer `p` by following `next` links, with fuel
(a dangling address is itself still reachable). -/
def chainAddrs (s : Stack T) : Nat → Ptr → List Nat
  | _, none => []
  | 0, some _ => []
  | fuel + 1, some a =>
    match hfind s.heap a with
    | none => [a]
    | some n => a :: chainAddrs s fuel n.next

/-- Pop until the first empty-marker, collecting the values, with fuel. -/
def drain : Nat → Stack T → Option (Stack T × List T)
  | 0, _ => none
  | fuel + 1, s =>
    match s.pop with
    | none => none
    | some (s1, none) => some (s1, [])
    | some (s1, some v) =>
      match drain fuel s1 with
      | none => none
      | some (s2, vs) => some (s2, v :: vs)

/-- Heap addresses are all below `nextAddr` (holds for every reachable state),
as a Boolean so a witness can evaluate it. -/
def WFb (s : Stack T) : Bool := s.heap.all fun p => p.1 < s.nextAddr

/-- A state at the entry of `reclaim` for a solitary popper: this thread has
already incremented `pops` (so `pops = 1`), has unlinked node `9` (holding
`42`), and one deferred node `5` (holding `77`) sits on the garbage chain. -/
def reclaimEntry : Stack Nat :=
  ⟨none, 1, some 5, [(5, ⟨77, none⟩), (9, ⟨42, none⟩)], 10, 2, 0⟩

/-- A state at the entry of `reclaim` with a second popper active
(`pops = 2`): this thread has unlinked node `7`, whose `next` still points at
the new head `3` (a live node, `top = some 3`), and node `5` is deferred on
the garbage chain. -/
def reclaimEntryContended : Stack Nat :=
  ⟨some 3, 2, some 5, [(7, ⟨100, some 3⟩), (3, ⟨30, none⟩), (5, ⟨50, none⟩)], 10, 3, 0⟩

/-! ## Claim theorems -/

/-- C1: the claim fails on the code.  `pop` on an empty stack returns the
empty-marker without ever decrementing `pops` (`return None` at
`src/stack.rs:53` precedes any `fetch_sub`), so after one completed `pop`
call, with no pop in flight, the counter is `1` rather than `0`. -/
theorem c1_empty_pop_skips_decrement :
    ∃ s : Stack Nat, run [Op.pop] = some (s, [none]) ∧ s.pops = 1 :=
  ⟨⟨none, 1, none, [], 0, 0, 0⟩, rfl, rfl⟩

/-- C2: the claim fails on the code.  At a true quiescent point (initial load
of `pops` reads `1`, the `fetch_sub`'s previous value is `1`, i.e.
`arrivals = 0`), the source's `fetch_sub(..) != 1` test sends it to the
`else if` branch, which *re-attaches* the captured garbage chain via `tie`
instead of freeing it: node `5` stays allocated and `garbage` points at it
again, and only the popped node `9` is freed (`frees = 1`, not `2`).  The
claim required the captured chain to be freed in full at this point. -/
theorem c2_quiescent_reclaim_keeps_garbage :
    Stack.reclaim reclaimEntry 9 0
      = some ⟨none, 0, some 5, [(5, ⟨77, none⟩)], 10, 2, 1⟩ := rfl

/-- C3: the claim fails on the code.  When a new popper arrives in the window
between the load and the decrement (load reads `1`, `arrivals = 1`, so the
`fetch_sub`'s previous value is `2 ≠ 1`), the source's `!= 1` branch *frees*
the captured garbage chain (node `5` is gone, `frees = 2`, `garbage = none`)
instead of re-attaching it — the exact unsafe direction the claim rules out.
Only the unconditional free of `node` itself matches the claim. -/
theorem c3_contended_reclaim_frees_garbage :
    Stack.reclaim reclaimEntry 9 1 = some ⟨none, 1, none, [], 10, 2, 2⟩ := rfl

/-- C4: the claim fails on the code.  With `pops = 2` the source appends via
`tie(node)`, but `tie` walks from `node` along `next` links to the *last* node
of that chain before splicing: since the unlinked node `7` still has
`next = some 3` (the live head), the walk ends at live node `3` and rewrites
`3`'s link from `none` to the garbage head `some 5`.  So a node other than
`node` has its link modified, and the whole live chain (not just `node`) is
now reachable from `garbage`. -/
theorem c4_append_modifies_other_links :
    Stack.reclaim reclaimEntryContended 7 0
      = some ⟨some 3, 1, some 7,
          [(7, ⟨100, some 3⟩), (3, ⟨30, some 5⟩), (5, ⟨50, none⟩)], 10, 3, 0⟩ ∧
    hfind reclaimEntryContended.heap 3 = some ⟨30, none⟩ :=
  ⟨rfl, rfl⟩

/-- The state reached by `new; pop; push 10; push 20; pop`: the empty `pop`
leaves `pops = 1`, so the second `pop` takes the `pops > 1` branch and `tie`
splices the unlinked node `1` in front of the still-live node `0`. -/
def sharedReachState : Stack Nat :=
  ⟨some 0, 1, some 1, [(1, ⟨20, some 0⟩), (0, ⟨10, none⟩)], 2, 2, 0⟩

/-- C5: the claim fails on the code.  After the reachable sequence
`pop; push 10; push 20; pop`, node `0` (value `10`) is reachable both from
`top` (directly) and from `garbage` (via node `1`, whose `next` still points
at `0`), violating the never-(a)-and-(b) invariant. -/
theorem c5_node_reachable_from_top_and_garbage :
    run [Op.pop, Op.push 10, Op.push 20, Op.pop]
      = some (sharedReachState, [none, some 20]) ∧
    0 ∈ chainAddrs sharedReachState 3 sharedReachState.top ∧
    0 ∈ chainAddrs sharedReachState 3 sharedReachState.garbage :=
  ⟨rfl, by decide, by decide⟩

/-- C7: the claim fails on the code.  In the single-threaded run
`pop; push 1; pop; push 2; push 3; pop; pop` every pushed value (`1`, `3`,
`2`) has already been popped once, so the claim requires the next `pop` to
return the empty-marker.  Instead the state shows `top = some 0` where node
`0` holds the already-popped value `1` (the `tie` of an earlier pop rewired
live links), and the eighth `pop` never returns at all: the value `1` would
be handed out a second time, but `reclaim`'s `tie` walks the link cycle
`0 → 2 → 1 → 0` forever, so the run is stuck (`none`). -/
theorem c7_lifo_violated_after_empty_pop :
    run [Op.pop, Op.push 1, Op.pop, Op.push 2, Op.push 3, Op.pop, Op.pop]
      = some (⟨some 0, 1, some 1,
          [(2, ⟨3, some 1⟩), (1, ⟨2, some 0⟩), (0, ⟨1, some 2⟩)], 3, 3, 0⟩,
          [none, some 1, some 3, some 2]) ∧
    run [Op.pop, Op.push 1, Op.pop, Op.push 2, Op.push 3, Op.pop, Op.pop, Op.pop]
      = none :=
  ⟨rfl, rfl⟩

/-- C9: the claim fails on the code.  A `pop` on the empty stack does return
the empty-marker and touches neither `top`, `garbage` nor the heap, but it
*does* mutate the stack state: `pops` goes from `0` to `1` and stays there
(no decrement on this path), and a repeated empty `pop` — still returning the
empty-marker — pushes it to `2`. -/
theorem c9_empty_pop_mutates_state :
    (Stack.new Nat).pop = some (⟨none, 1, none, [], 0, 0, 0⟩, none) ∧
    (⟨none, 1, none, [], 0, 0, 0⟩ : Stack Nat).pop
      = some (⟨none, 2, none, [], 0, 0, 0⟩, none) ∧
    (⟨none, 1, none, [], 0, 0, 0⟩ : Stack Nat) ≠ Stack.new Nat :=
  ⟨rfl, rfl, by decide⟩

/-! ## Helper lemmas -/

/-- `tie` changes only `heap` and `garbage`. -/
theorem tie_pops_frees {s t : Stack T} {l : Nat} (h : s.tie l = some t) :
    t.pops = s.pops ∧ t.frees = s.frees := by
  unfold Stack.tie at h
  cases hf : findLast s.heap (s.heap.length + 1) l with
  | none => rw [hf] at h; exact absurd h (by simp)
  | some last =>
    rw [hf] at h
    simp only [Option.some.injEq] at h
    subst h
    exact ⟨rfl, rfl⟩

/-- Once an empty `pop` has left `pops ≥ 1`, every later `reclaim` loads a
value ≥ 2 and takes the append branch, which frees nothing. -/
theorem reclaim_frees_of_two_le {s t : Stack T} {a : Nat}
    (h : s.reclaim a 0 = some t) (hp : 2 ≤ s.pops) :
    t.pops = s.pops - 1 ∧ t.frees = s.frees := by
  unfold Stack.reclaim at h
  rw [if_neg (by omega)] at h
  cases htie : s.tie a with
  | none => rw [htie] at h; exact absurd h (by simp)
  | some s1 =>
    rw [htie] at h
    simp only [Option.some.injEq] at h
    subst h
    obtain ⟨h1, h2⟩ := tie_pops_frees htie
    refine ⟨?_, h2⟩
    simp [h1]

/-- `pop` from a state with `pops ≥ 1` keeps `pops ≥ 1` and frees nothing. -/
theorem pop_frees_of_one_le {s t : Stack T} {r : Option T}
    (h : s.pop = some (t, r)) (hp : 1 ≤ s.pops) :
    1 ≤ t.pops ∧ t.frees = s.frees := by
  simp only [Stack.pop] at h
  split at h
  · simp only [Option.some.injEq, Prod.mk.injEq] at h
    obtain ⟨h1, -⟩ := h
    subst h1
    exact ⟨Nat.le_add_left 1 s.pops, rfl⟩
  · split at h
    · exact absurd h (by simp)
    · split at h
      · exact absurd h (by simp)
      · rename_i u htop n hf s2 hrec
        simp only [Option.some.injEq, Prod.mk.injEq] at h
        obtain ⟨h1, -⟩ := h
        subst h1
        obtain ⟨h2, h3⟩ :=
          reclaim_frees_of_two_le hrec (show 2 ≤ s.pops + 1 by omega)
        refine ⟨?_, h3⟩
        rw [h2]
        exact show 1 ≤ s.pops + 1 - 1 by omega

/-- Running any operations from a state with `pops ≥ 1` never frees a node. -/
theorem runFrom_frees_stable :
    ∀ (ops : List (Op T)) (s t : Stack T) (rs : List (Option T)),
      1 ≤ s.pops → runFrom s ops = some (t, rs) → 1 ≤ t.pops ∧ t.frees = s.frees := by
  intro ops
  induction ops with
  | nil =>
    intro s t rs hp h
    simp only [runFrom, Option.some.injEq, Prod.mk.injEq] at h
    obtain ⟨h1, -⟩ := h
    subst h1
    exact ⟨hp, rfl⟩
  | cons op rest ih =>
    intro s t rs hp h
    cases op with
    | push v =>
      simp only [runFrom] at h
      have hpp : 1 ≤ (s.push v).pops := hp
      obtain ⟨h1, h2⟩ := ih (s.push v) t rs hpp h
      exact ⟨h1, h2⟩
    | pop =>
      simp only [runFrom] at h
      cases hpop : s.pop with
      | none => rw [hpop] at h; exact absurd h (by simp)
      | some p =>
        obtain ⟨s1, r⟩ := p
        rw [hpop] at h
        dsimp only at h
        cases hrun : runFrom s1 rest with
        | none => rw [hrun] at h; exact absurd h (by simp)
        | some q =>
          obtain ⟨s2, rs2⟩ := q
          rw [hrun] at h
          dsimp only at h
          simp only [Option.some.injEq, Prod.mk.injEq] at h
          obtain ⟨h1, -⟩ := h
          subst h1
          obtain ⟨hq1, hq2⟩ := pop_frees_of_one_le hpop hp
          obtain ⟨hr1, hr2⟩ := ih s1 s2 rs2 hq1 hrun
          exact ⟨hr1, hr2.trans hq2⟩

/-- C6: the claim fails on the code.  The reachable run `pop; push 1; pop`
ends fully drained (`top = none`) with no operation in flight, yet the one
node ever allocated has not been freed (`allocs = 1`, `frees = 0`): it sits
on `garbage` with `pops` stuck at `1` (the empty `pop` never decremented),
and — as the second conjunct proves — *no* continuation of the run ever
frees anything, so the node is leaked permanently, not merely queued until a
later free. -/
theorem c6_drained_quiescent_leak :
    run [Op.pop, Op.push 1, Op.pop]
      = some (⟨none, 1, some 0, [(0, ⟨1, none⟩)], 1, 1, 0⟩, [none, some 1]) ∧
    ∀ (ops : List (Op Nat)) (t : Stack Nat) (rs : List (Option Nat)),
      runFrom (⟨none, 1, some 0, [(0, ⟨1, none⟩)], 1, 1, 0⟩ : Stack Nat) ops
        = some (t, rs) →
      t.frees = 0 := by
  refine ⟨rfl, fun ops t rs h => ?_⟩
  exact (runFrom_frees_stable ops _ t rs (by decide) h).2

/-- Witness for C6: instantiating the quantified part at the continuation
`[pop]`, whose run-equation hypothesis is discharged by evaluation. -/
theorem c6_drained_quiescent_leak_witness :
    (⟨none, 2, some 0, [(0, ⟨1, none⟩)], 1, 1, 0⟩ : Stack Nat).frees = 0 :=
  c6_drained_quiescent_leak.2 [Op.pop]
    ⟨none, 2, some 0, [(0, ⟨1, none⟩)], 1, 1, 0⟩ [none] rfl

/-- A successful `hfind` is membership in the heap. -/
theorem hfind_mem :
    ∀ {l : List (Nat × Node T)} {a : Nat} {n : Node T},
      hfind l a = some n → (a, n) ∈ l := by
  intro l
  induction l with
  | nil => intro a n h; exact absurd h (by simp [hfind])
  | cons p rest ih =>
    intro a n h
    obtain ⟨b, m⟩ := p
    simp only [hfind] at h
    by_cases hab : a = b
    · rw [if_pos hab] at h
      simp only [Option.some.injEq] at h
      subst hab; subst h
      exact List.mem_cons_self _ _
    · rw [if_neg hab] at h
      exact List.mem_cons_of_mem _ (ih h)

/-- C10: confirmed.  `push` touches neither `pops` nor `garbage` (the source
at `src/stack.rs:30-42` reads only `top` and the fresh node), and the value
and link of every node already in the heap — in particular every node linked
into the stack or the garbage chain — are unchanged: any address that
dereferenced to `n` before the push still dereferences to `n` after it. -/
theorem c10_push_frame (s : Stack Nat) (v : Nat) (h : WFb s = true) :
    (s.push v).pops = s.pops ∧ (s.push v).garbage = s.garbage ∧
    ∀ (a : Nat) (n : Node Nat), hfind s.heap a = some n →
      hfind (s.push v).heap a = some n := by
  refine ⟨rfl, rfl, fun a n hf => ?_⟩
  have hm : (a, n) ∈ s.heap := hfind_mem hf
  have hlt : a < s.nextAddr := by
    have := List.all_eq_true.mp h (a, n) hm
    simpa using this
  simp only [Stack.push, hfind]
  rw [if_neg (by omega)]
  exact hf

/-- Witness for C10 at the concrete stack `new.push 7` with fresh value `8`. -/
theorem c10_push_frame_witness :
    (((Stack.new Nat).push 7).push 8).pops = ((Stack.new Nat).push 7).pops ∧
    (((Stack.new Nat).push 7).push 8).garbage = ((Stack.new Nat).push 7).garbage ∧
    ∀ (a : Nat) (n : Node Nat), hfind ((Stack.new Nat).push 7).heap a = some n →
      hfind (((Stack.new Nat).push 7).push 8).heap a = some n :=
  c10_push_frame ((Stack.new Nat).push 7) 8 (by decide)

/-! ## Conservation for the pushes-then-drain pattern (C8)

`mkStack k rs na al fr` is the stack whose live chain holds the values `rs`
(most recently pushed first) at the contiguous addresses `k + rs.length - 1`
down to `k`, with `pops = 0` and empty garbage — exactly the states traversed
by a block of pushes followed by draining pops. -/

/-- Pointer to the head of the chain of `rs` values allocated from `k`. -/
def topPtr (k : Nat) : List T → Ptr
  | [] => none
  | _ :: rest => some (k + rest.length)

/-- The heap of the chain of `rs` values allocated from `k` upward. -/
def chainHeap (k : Nat) : List T → List (Nat × Node T)
  | [] => []
  | v :: rest => (k + rest.length, ⟨v, topPtr k rest⟩) :: chainHeap k rest

/-- A quiescent stack holding exactly the chain `rs`. -/
def mkStack (k : Nat) (rs : List T) (na al fr : Nat) : Stack T :=
  ⟨topPtr k rs, 0, none, chainHeap k rs, na, al, fr⟩

/-- `push` onto a chain state extends the chain. -/
theorem push_mkStack (k : Nat) (rs : List T) (al fr : Nat) (v : T) :
    (mkStack k rs (k + rs.length) al fr).push v
      = mkStack k (v :: rs) (k + (v :: rs).length) (al + 1) fr := rfl

/-- `pop` on a non-empty chain state: the solitary popper takes the fast
path of `reclaim` (loaded `pops = 1`, previous value `1`, empty garbage) and
frees the unlinked node at once, returning the head value. -/
theorem pop_mkStack (k : Nat) (v : T) (rs : List T) (na al fr : Nat) :
    (mkStack k (v :: rs) na al fr).pop
      = some (mkStack k rs na al (fr + 1), some v) := by
  simp [Stack.pop, mkStack, topPtr, chainHeap, Stack.reclaim, freeNode, hfind, hdel]

/-- A block of pushes from a chain state builds the longer chain. -/
theorem foldl_push_mkStack (vs : List T) :
    ∀ (k : Nat) (rs : List T) (al fr : Nat),
      List.foldl Stack.push (mkStack k rs (k + rs.length) al fr) vs
        = mkStack k (vs.reverse ++ rs) (k + (vs.reverse ++ rs).length)
            (al + vs.length) fr := by
  induction vs with
  | nil => intro k rs al fr; simp
  | cons v vs ih =>
    intro k rs al fr
    rw [List.foldl_cons, push_mkStack, ih k (v :: rs) (al + 1) fr]
    have h1 : vs.reverse ++ v :: rs = (v :: vs).reverse ++ rs := by simp
    rw [h1]
    have h2 : al + 1 + vs.length = al + (v :: vs).length := by
      simp only [List.length_cons]; omega
    rw [h2]

/-- One step of `drain`. -/
theorem drain_succ (fuel : Nat) (s : Stack T) :
    drain (fuel + 1) s
      = match s.pop with
        | none => none
        | some (s1, none) => some (s1, [])
        | some (s1, some v) =>
          match drain fuel s1 with
          | none => none
          | some (s2, vs) => some (s2, v :: vs) := rfl

/-- Draining a chain state pops the chain values in order, freeing each node,
and ends with one empty `pop` (which leaves `pops = 1`). -/
theorem drain_mkStack (rs : List T) :
    ∀ (k na al fr : Nat),
      drain (rs.length + 1) (mkStack k rs na al fr)
        = some (⟨none, 1, none, [], na, al, fr + rs.length⟩, rs) := by
  induction rs with
  | nil =>
    intro k na al fr
    simp [drain, Stack.pop, mkStack, topPtr, chainHeap]
  | cons v rest ih =>
    intro k na al fr
    have hfuel : (v :: rest).length + 1 = rest.length + 1 + 1 := by
      simp only [List.length_cons]
    rw [hfuel, drain_succ, pop_mkStack]
    dsimp only
    rw [ih k na al (fr + 1)]
    dsimp only
    have h3 : fr + 1 + rest.length = fr + (v :: rest).length := by
      simp only [List.length_cons]; omega
    rw [h3]

/-- C8: confirmed.  For any block of pushes followed by pops repeated until
the stack is empty, the popped values are exactly the pushed values in
reverse order — the multisets agree, with no duplication and no loss.  (The
final state even shows full reclamation on this pattern: the heap is empty
and `frees = allocs = vs.length`; only `pops` is left at `1` by the final
empty `pop`.) -/
theorem c8_conservation (vs : List Nat) :
    drain (vs.length + 1) (List.foldl Stack.push (Stack.new Nat) vs)
      = some (⟨none, 1, none, [], vs.length, vs.length, vs.length⟩, vs.reverse) ∧
    (↑(vs.reverse) : Multiset Nat) = (↑vs : Multiset Nat) := by
  constructor
  · have h0 : Stack.new Nat = mkStack 0 [] (0 + ([] : List Nat).length) 0 0 := rfl
    rw [h0, foldl_push_mkStack vs 0 [] 0 0]
    have h1 : vs.reverse ++ ([] : List Nat) = vs.reverse := by simp
    rw [h1]
    have h2 : vs.length = vs.reverse.length := (List.length_reverse vs).symm
    rw [h2, drain_mkStack vs.reverse 0
          (0 + vs.reverse.length) (0 + vs.reverse.length) 0]
    simp
  · exact Multiset.coe_reverse vs

end ConcurrencyStack
